import Mathlib

/-!
Shallow embedding of the wrought expression core:
`src/ast/expressions.rs` (arena store, node variants, ContextEq) and
`src/parser/expressions.rs` (Pratt parser).  Machine integers are
modelled as `Nat` (ids are `u32` indices, literal values `u64`; nothing
here exercises overflow).  `f64` is modelled by its 64-bit pattern with
IEEE-754 equality.  Rust panics (failed `unwrap`) and fuel exhaustion of
the recursions are modelled as `none` / `Option`.
-/

namespace Wrought

/-- Modelled from the spec: `Span` lives in the ast module outside the
provided sources; it is a start/end offset pair. -/
structure Span where
  start : Nat
  stop : Nat
deriving DecidableEq, Repr

/-- Modelled from the spec: `merge(a, b)` is the smallest range covering
both, `{min(a.start,b.start), max(a.end,b.end)}`. -/
def merge (a b : Span) : Span :=
  ⟨Nat.min a.start b.start, Nat.max a.stop b.stop⟩

/-- Modelled from the spec: `NameId` is an opaque symbol handle produced by
the external name-interning collaborator. -/
abbrev NameId := Nat

/-- Expression handle: the `u32` index newtype of the arena, modelled as
`Nat`. -/
abbrev ExpressionId := Nat

/-- IEEE-754 double: true when the exponent field is all ones and the
mantissa is nonzero. -/
def f64_is_nan (bits : Nat) : Bool :=
  (bits / 2 ^ 52) % 2 ^ 11 == 2047 && bits % 2 ^ 52 != 0

/-- IEEE-754 double: positive or negative zero bit pattern. -/
def f64_is_zero (bits : Nat) : Bool :=
  bits == 0 || bits == 2 ^ 63

/-- Rust `f64` PartialEq on bit patterns: NaN compares unequal to
everything (itself included); positive and negative zero compare equal;
otherwise equality of bit patterns. -/
def f64_eq (a b : Nat) : Bool :=
  if f64_is_nan a || f64_is_nan b then false
  else if f64_is_zero a && f64_is_zero b then true
  else a == b

/-- `Literal` from the ast: `Integer(u64)` or `Float(f64)`, the float held
as its bit pattern. -/
inductive Literal where
  | Integer (value : Nat)
  | Float (bits : Nat)
deriving DecidableEq, Repr

/-- Derived `PartialEq` on `Literal`, which is what
`impl ContextEq for Literal` delegates to (`self == other`). -/
def Literal.context_eq : Literal → Literal → Bool
  | .Integer a, .Integer b => a == b
  | .Float a, .Float b => f64_eq a b
  | _, _ => false

/-- Float literal holding a NaN bit pattern. -/
def Literal.is_nan : Literal → Bool
  | .Integer _ => false
  | .Float bits => f64_is_nan bits

/-- `BinaryOp` from the ast. -/
inductive BinaryOp where
  | Multiply | Divide | Modulo | Add | Subtract
  | BitShiftL | BitShiftR | ArithShiftR
  | LessThan | LessThanEqual | GreaterThan | GreaterThanEqual
  | Equals | NotEquals
  | BitOr | BitXor | BitAnd
  | LogicalOr | LogicalAnd
deriving DecidableEq, Repr

/-- `Expression` from the ast.  The eighteen macro-generated binary
structs, all of shape left/right and uniform in the operator, are embedded
as the single operator-tagged constructor `Binary`. -/
inductive Expression where
  | Identifier (ident : NameId)
  | Literal (lit : Literal)
  | Call (ident : NameId) (args : List ExpressionId)
  | Invert (inner : ExpressionId)
  | Binary (op : BinaryOp) (left : ExpressionId) (right : ExpressionId)
deriving DecidableEq, Repr

/-- Child handles stored directly in a node. -/
def child_ids : Expression → List ExpressionId
  | .Identifier _ => []
  | .Literal _ => []
  | .Call _ args => args
  | .Invert inner => [inner]
  | .Binary _ l r => [l, r]

/-- `ExpressionData`: `expressions` is the `PrimaryMap` (the id is the
index), `expression_spans` the `HashMap` as an association list where the
most recent insertion comes first. -/
structure ExpressionData where
  expressions : List Expression
  expression_spans : List (ExpressionId × Span)
deriving DecidableEq, Repr

/-- `HashMap::get` over the association-list model. -/
def lookup_span : List (ExpressionId × Span) → ExpressionId → Option Span
  | [], _ => none
  | (k, v) :: rest, id => if k = id then some v else lookup_span rest id

/-- `ExpressionData::alloc`: push the node, record the span under the
freshly assigned handle, return the handle. -/
def ExpressionData.alloc (d : ExpressionData) (e : Expression) (sp : Span) :
    ExpressionId × ExpressionData :=
  let id := d.expressions.length
  (id, ⟨d.expressions ++ [e], (id, sp) :: d.expression_spans⟩)

/-- `ExpressionData::get_exp` before its `unwrap`: `none` is the panic. -/
def ExpressionData.get_exp? (d : ExpressionData) (id : ExpressionId) : Option Expression :=
  d.expressions[id]?

/-- `ExpressionData::get_span` before its `unwrap`: `none` is the panic. -/
def ExpressionData.get_span? (d : ExpressionData) (id : ExpressionId) : Option Span :=
  lookup_span d.expression_spans id

/-- Total version of `get_span` used where the source `unwrap` cannot fail
(handles produced by this store); the default is never reached on those
paths. -/
def ExpressionData.get_span (d : ExpressionData) (id : ExpressionId) : Span :=
  (d.get_span? id).getD ⟨0, 0⟩

/-- `ExpressionData::alloc_ident`. -/
def ExpressionData.alloc_ident (d : ExpressionData) (ident : NameId) (sp : Span) :
    ExpressionId × ExpressionData :=
  d.alloc (.Identifier ident) sp

/-- `ExpressionData::alloc_literal`. -/
def ExpressionData.alloc_literal (d : ExpressionData) (lit : Literal) (sp : Span) :
    ExpressionId × ExpressionData :=
  d.alloc (.Literal lit) sp

/-- `ExpressionData::alloc_call`.  The parser call site passes an extra
freshly generated id the provided `alloc_call` signature does not accept
(an inconsistency the spec flags as an open question); nothing in the
claims depends on it, and the `Call` node stores the callee symbol. -/
def ExpressionData.alloc_call (d : ExpressionData) (ident : NameId)
    (args : List ExpressionId) (sp : Span) : ExpressionId × ExpressionData :=
  d.alloc (.Call ident args) sp

/-- `ExpressionData::alloc_bin_op`: the span is always derived by merging
the operand spans; the caller never supplies it. -/
def ExpressionData.alloc_bin_op (d : ExpressionData) (op : BinaryOp)
    (left right : ExpressionId) : ExpressionId × ExpressionData :=
  let sp := merge (d.get_span left) (d.get_span right)
  d.alloc (.Binary op left right) sp

/-- `impl ContextEq for ExpressionId`, parameterized by the comparison used
on the resolved nodes: compare the two spans first (false on mismatch),
then resolve both handles and compare the nodes.  A failed lookup is the
Rust panic, `none`. -/
def id_context_eq_via (rec_exp : Expression → Expression → Option Bool)
    (d : ExpressionData) (a b : ExpressionId) : Option Bool :=
  match d.get_span? a, d.get_span? b with
  | some sa, some sb =>
    if sa ≠ sb then some false
    else
      match d.get_exp? a, d.get_exp? b with
      | some ea, some eb => rec_exp ea eb
      | _, _ => none
  | _, _ => none

/-- The `zip` / short-circuiting `all` over the two argument lists of
`Call::context_eq`: pairs past the shorter list are never formed. -/
def args_context_eq (rec_id : ExpressionId → ExpressionId → Option Bool) :
    List ExpressionId → List ExpressionId → Option Bool
  | l :: ls, r :: rs =>
    match rec_id l r with
    | none => none
    | some false => some false
    | some true => args_context_eq rec_id ls rs
  | _, _ => some true

/-- `impl ContextEq for Expression` and the per-kind impls it dispatches
to, with fuel for the recursion through the store.  Identifiers compare
symbol handles; literals use derived PartialEq; calls compare the callee
symbols and zip the argument handles through `ExpressionId::context_eq`
(span-checking); `Invert` and the binary kinds resolve their child handles
with `get_exp` and compare the child nodes directly (no span check),
computing the left and the right comparison before conjoining. -/
def exp_context_eq : Nat → ExpressionData → Expression → Expression → Option Bool
  | 0, _, _, _ => none
  | fuel + 1, d, a, b =>
    match a, b with
    | .Identifier x, .Identifier y => some (x == y)
    | .Literal x, .Literal y => some (x.context_eq y)
    | .Call ix xs, .Call iy ys =>
      match args_context_eq (id_context_eq_via (exp_context_eq fuel d) d) xs ys with
      | none => none
      | some args_eq => some ((ix == iy) && args_eq)
    | .Invert x, .Invert y =>
      match d.get_exp? x, d.get_exp? y with
      | some ex, some ey => exp_context_eq fuel d ex ey
      | _, _ => none
    | .Binary opx lx rx, .Binary opy ly ry =>
      if opx = opy then
        match d.get_exp? lx, d.get_exp? ly with
        | some elx, some ely =>
          match exp_context_eq fuel d elx ely with
          | none => none
          | some left_eq =>
            match d.get_exp? rx, d.get_exp? ry with
            | some erx, some ery =>
              match exp_context_eq fuel d erx ery with
              | none => none
              | some right_eq => some (left_eq && right_eq)
            | _, _ => none
        | _, _ => none
      else some false
    | _, _ => some false

/-- `ExpressionId::context_eq` at the top level (both handles resolved in
the same store context). -/
def context_eq (fuel : Nat) (d : ExpressionData) (a b : ExpressionId) : Option Bool :=
  id_context_eq_via (exp_context_eq fuel d) d a b

/-- Every handle below the arena size has a recorded span, and every node
only references strictly smaller handles (children are allocated before
their parent). -/
def well_formed (d : ExpressionData) : Bool :=
  (List.range d.expressions.length).all fun i =>
    (d.get_span? i).isSome &&
      (match d.get_exp? i with
       | some e => (child_ids e).all fun c => decide (c < i)
       | none => true)

/-- No float literal in the store holds a NaN bit pattern. -/
def no_nan (d : ExpressionData) : Bool :=
  d.expressions.all fun e =>
    match e with
    | .Literal l => !l.is_nan
    | _ => true

/-- Modelled from the spec: the lexer token variants consumed by this
core.  The identifier token carries the interned symbol handle (interning
is the external collaborator); integer tokens carry the normalized
unsigned value; the float token carries the value's bit pattern. -/
inductive Token where
  | LParen | RParen | Comma
  | Identifier (name : NameId)
  | DecIntLiteral (value : Nat)
  | DecFloatLiteral (bits : Nat)
  | BinLiteral (value : Nat)
  | HexLiteral (value : Nat)
  | StringLiteral (value : String)
  | Invert
  | LogicalOr | LogicalAnd | BitOr | BitXor | BitAnd
  | EQ | NEQ | LT | LTE | GT | GTE
  | BitShiftL | BitShiftR | ArithShiftR
  | Add | Sub | Mult | Div | Mod
deriving DecidableEq, Repr

/-- Modelled from the spec: a token paired with its source span, as handed
out by the cursor. -/
structure MToken where
  token : Token
  span : Span
deriving DecidableEq, Repr

/-- Modelled from the spec: `ParseInput`, the cursor over a materialized
token list with an index, supporting peek, bounded lookahead, consume, and
checkpoint/restore as a cheap position reset. -/
structure ParseInput where
  tokens : List MToken
  index : Nat
deriving DecidableEq, Repr

/-- Modelled from the spec: the typed parse errors.  The cursor position
they carry in the source is omitted; the claims depend only on the error
class and description. -/
inductive ParserError where
  | UnexpectedToken (description : String)
  | Unsupported (description : String)
  | EndOfInput
deriving DecidableEq, Repr

/-- `ParseInput::peek`: non-consuming lookahead at the cursor. -/
def ParseInput.peek? (i : ParseInput) : Option MToken :=
  i.tokens[i.index]?

/-- `ParseInput::peekn`: lookahead at the given offset, token only. -/
def ParseInput.peekn (i : ParseInput) (n : Nat) : Option Token :=
  (i.tokens[i.index + n]?).map (·.token)

/-- Advance the cursor by one token. -/
def ParseInput.advance (i : ParseInput) : ParseInput :=
  ⟨i.tokens, i.index + 1⟩

/-- `ParseInput::next`: consume and return the token at the cursor. -/
def ParseInput.next? (i : ParseInput) : Option (MToken × ParseInput) :=
  i.peek?.map fun t => (t, i.advance)

/-- `ParseInput::checkpoint`: save the cursor position. -/
def ParseInput.checkpoint (i : ParseInput) : Nat :=
  i.index

/-- `ParseInput::restore`: rewind the cursor to a saved position. -/
def ParseInput.restore (i : ParseInput) (c : Nat) : ParseInput :=
  ⟨i.tokens, c⟩

/-- Modelled from the spec: `ParseInput::assert_next` consumes the next
token, requiring it to equal the expected one, and yields its span;
otherwise the cursor is unmoved and a typed unexpected-token error carries
the expected-construct description. -/
def assert_next (i : ParseInput) (expected : Token) (description : String) :
    Except ParserError (Span × ParseInput) :=
  match i.peek? with
  | none => .error .EndOfInput
  | some t =>
    if t.token = expected then .ok (t.span, i.advance)
    else .error (.UnexpectedToken description)

/-- The outcome of one parser entry point: result or typed error, the
store, and the cursor, mirroring the Rust `&mut` pair plus `Result`. -/
abbrev PResult :=
  Except ParserError ExpressionId × ExpressionData × ParseInput

/-- The continuation type used where a helper re-enters the Pratt parser:
cursor, store, and minimum binding power. -/
abbrev ParseCont :=
  ParseInput → ExpressionData → Nat → Option PResult

/-- `infix_binding_power`: the `(left_bp, right_bp)` table, `u8` values as
`Nat`. -/
def infix_binding_power : BinaryOp → Nat × Nat
  | .LogicalOr => (10, 1)
  | .LogicalAnd => (20, 21)
  | .BitOr => (30, 31)
  | .BitXor => (40, 41)
  | .BitAnd => (50, 51)
  | .Equals | .NotEquals => (60, 61)
  | .LessThan | .LessThanEqual | .GreaterThan | .GreaterThanEqual => (70, 71)
  | .BitShiftL | .BitShiftR | .ArithShiftR => (80, 81)
  | .Add | .Subtract => (90, 91)
  | .Multiply | .Divide | .Modulo => (100, 101)

/-- The token-to-operator match inside `try_parse_bin_op`. -/
def bin_op_of_token : Token → Option BinaryOp
  | .LogicalOr => some .LogicalOr
  | .LogicalAnd => some .LogicalAnd
  | .BitOr => some .BitOr
  | .BitXor => some .BitXor
  | .BitAnd => some .BitAnd
  | .EQ => some .Equals
  | .NEQ => some .NotEquals
  | .LT => some .LessThan
  | .LTE => some .LessThanEqual
  | .GT => some .GreaterThan
  | .GTE => some .GreaterThanEqual
  | .BitShiftL => some .BitShiftL
  | .BitShiftR => some .BitShiftR
  | .ArithShiftR => some .ArithShiftR
  | .Add => some .Add
  | .Sub => some .Subtract
  | .Mult => some .Multiply
  | .Div => some .Divide
  | .Mod => some .Modulo
  | _ => none

/-- `try_parse_bin_op`: peek at the cursor; when a binary operator token is
there, consume it and return the operator with its span, else leave the
cursor untouched and return nothing (also at end of input, where the peek
error becomes `None` via `ok()?`). -/
def try_parse_bin_op (input : ParseInput) : Option (BinaryOp × Span) × ParseInput :=
  match input.peek? with
  | none => (none, input)
  | some t =>
    match bin_op_of_token t.token with
    | none => (none, input)
    | some op => (some (op, t.span), input.advance)

/-- `parse_ident_expr`: consume one token; an identifier allocates an
identifier leaf with the token span; anything else restores the checkpoint
and fails with the unexpected-token error. -/
def parse_ident_expr (input : ParseInput) (data : ExpressionData) : PResult :=
  match input.next? with
  | none => (.error .EndOfInput, data, input)
  | some (t, input1) =>
    match t.token with
    | .Identifier ident =>
      let (id, data1) := data.alloc_ident ident t.span
      (.ok id, data1, input1)
    | _ => (.error (.UnexpectedToken "Expected identifier"), data, input)

/-- `parse_literal`: consume one token; a string literal fails with the
typed unsupported-construct error before anything is allocated; the
integer and float forms allocate a literal leaf with the token span; any
other token fails with the generic unexpected-token error. -/
def parse_literal (input : ParseInput) (data : ExpressionData) : PResult :=
  match input.next? with
  | none => (.error .EndOfInput, data, input)
  | some (t, input1) =>
    match t.token with
    | .StringLiteral _ => (.error (.Unsupported "StringLiteral"), data, input1)
    | .DecIntLiteral v =>
      let (id, data1) := data.alloc_literal (.Integer v) t.span
      (.ok id, data1, input1)
    | .DecFloatLiteral v =>
      let (id, data1) := data.alloc_literal (.Float v) t.span
      (.ok id, data1, input1)
    | .BinLiteral v =>
      let (id, data1) := data.alloc_literal (.Integer v) t.span
      (.ok id, data1, input1)
    | .HexLiteral v =>
      let (id, data1) := data.alloc_literal (.Integer v) t.span
      (.ok id, data1, input1)
    | _ => (.error (.UnexpectedToken "Parse Literal"), data, input1)

/-- `parse_parenthetical`: consume `(`, parse the inner expression through
the continuation (this is `parse_expression`, minimum binding power 0),
require `)`, and return the inner expression unchanged: no node is
allocated for the parentheses. -/
def parse_parenthetical (rec_expr : ParseCont) (input : ParseInput)
    (data : ExpressionData) : Option PResult :=
  match assert_next input .LParen "Left parenthesis \x28" with
  | .error e => some (.error e, data, input)
  | .ok (_, input1) =>
    match rec_expr input1 data 0 with
    | none => none
    | some (.error e, d, i) => some (.error e, d, i)
    | some (.ok inner, d, i) =>
      match assert_next i .RParen "Right parenthesis \x29" with
      | .error e => some (.error e, d, i)
      | .ok (_, i2) => some (.ok inner, d, i2)

/-- The argument-list loop of `parse_call`: each iteration parses one
expression, then a comma continues and `)` finishes, allocating the call
node whose span merges the opening and closing parenthesis spans; any
other token is an unexpected-token error. -/
def parse_call_args (rec_expr : ParseCont) :
    Nat → ParseInput → ExpressionData → NameId → Span → List ExpressionId → Option PResult
  | 0, _, _, _, _, _ => none
  | fuel + 1, input, data, ident, lparen_span, acc =>
    match rec_expr input data 0 with
    | none => none
    | some (.error e, d, i) => some (.error e, d, i)
    | some (.ok arg, d, i) =>
      match i.next? with
      | none => some (.error .EndOfInput, d, i)
      | some (t, i1) =>
        match t.token with
        | .Comma => parse_call_args rec_expr fuel i1 d ident lparen_span (acc ++ [arg])
        | .RParen =>
          let (id, d1) := d.alloc_call ident (acc ++ [arg]) (merge lparen_span t.span)
          some (.ok id, d1, i1)
        | _ => some (.error (.UnexpectedToken "Argument list"), d, i1)

/-- `parse_call`: consume the callee identifier, require `(`, then run the
argument-list loop. -/
def parse_call (rec_expr : ParseCont) (fuel : Nat) (input : ParseInput)
    (data : ExpressionData) : Option PResult :=
  match input.next? with
  | none => some (.error .EndOfInput, data, input)
  | some (first, input1) =>
    match first.token with
    | .Identifier ident =>
      match assert_next input1 .LParen "Function arguments" with
      | .error e => some (.error e, data, input1)
      | .ok (lparen_span, input2) =>
        parse_call_args rec_expr fuel input2 data ident lparen_span []
    | _ => some (.error (.UnexpectedToken "Parse expression identifier"), data, input1)

/-- `parse_leaf`: dispatch on lookahead: `(` goes to the parenthetical
rule; an identifier immediately followed by `(` goes to the call rule; a
bare identifier is an identifier leaf; anything else goes to the literal
rule.  Peeking past the end of input is the propagated peek error. -/
def parse_leaf (rec_expr : ParseCont) (fuel : Nat) (input : ParseInput)
    (data : ExpressionData) : Option PResult :=
  match input.peek? with
  | none => some (.error .EndOfInput, data, input)
  | some t =>
    if t.token = .LParen then parse_parenthetical rec_expr input data
    else if (match input.peekn 0, input.peekn 1 with
             | some (.Identifier _), some .LParen => true
             | _, _ => false) then
      parse_call rec_expr fuel input data
    else
      match t.token with
      | .Identifier _ => some (parse_ident_expr input data)
      | _ => some (parse_literal input data)

/-- The operator loop of `pratt_parse`: checkpoint, try a binary operator;
none ends the loop with the accumulated left-hand side; an operator whose
left binding power is below the minimum is un-consumed by restoring the
checkpoint and ends the loop; otherwise the right-hand side is parsed with
the operator's right binding power as the minimum and folded into a binary
node via `alloc_bin_op`. -/
def pratt_loop (rec_expr : ParseCont) :
    Nat → ParseInput → ExpressionData → Nat → ExpressionId → Option PResult
  | 0, _, _, _, _ => none
  | fuel + 1, input, data, min_bp, lhs =>
    let cp := input.checkpoint
    match try_parse_bin_op input with
    | (none, input1) => some (.ok lhs, data, input1)
    | (some (op, _), input1) =>
      let bp := infix_binding_power op
      if bp.1 < min_bp then
        some (.ok lhs, data, input1.restore cp)
      else
        match rec_expr input1 data bp.2 with
        | none => none
        | some (.error e, d, i) => some (.error e, d, i)
        | some (.ok rhs, d, i) =>
          let (id, d1) := d.alloc_bin_op op lhs rhs
          pratt_loop rec_expr fuel i d1 min_bp id

/-- `pratt_parse`: parse one leaf, then run the operator loop.  The fuel
bounds the recursion depth; the Rust recursion is bounded by the input. -/
def pratt_parse : Nat → ParseInput → ExpressionData → Nat → Option PResult
  | 0, _, _, _ => none
  | fuel + 1, input, data, min_bp =>
    match parse_leaf (pratt_parse fuel) fuel input data with
    | none => none
    | some (.error e, d, i) => some (.error e, d, i)
    | some (.ok lhs, d, i) => pratt_loop (pratt_parse fuel) fuel i d min_bp lhs

/-- `parse_expression`: the entry point, minimum binding power 0. -/
def parse_expression (fuel : Nat) (input : ParseInput) (data : ExpressionData) :
    Option PResult :=
  pratt_parse fuel input data 0

/-- The empty store a compilation unit starts from. -/
def emptyData : ExpressionData := ⟨[], []⟩

/-- Every handle below the arena size has a recorded span. -/
def SpansPresent (d : ExpressionData) : Prop :=
  ∀ i, i < d.expressions.length → (d.get_span? i).isSome = true

/-- Every binary node references handles inside the arena and its recorded
span is the merge of its operands' spans: the span-composition invariant
for binary nodes. -/
def BinSpanInv (d : ExpressionData) : Prop :=
  ∀ i op l r, d.get_exp? i = some (.Binary op l r) →
    l < d.expressions.length ∧ r < d.expressions.length ∧
      d.get_span? i = some (merge (d.get_span l) (d.get_span r))

/-- The store invariant the parser maintains. -/
def StoreInv (d : ExpressionData) : Prop :=
  SpansPresent d ∧ BinSpanInv d

/-- Postcondition of one parser step started on store `d`: the invariant
holds on the resulting store, the store only grew, and a returned handle
is inside it. -/
def POkr (d : ExpressionData) (r : PResult) : Prop :=
  StoreInv r.2.1 ∧ d.expressions.length ≤ r.2.1.expressions.length ∧
    ∀ id, r.1 = .ok id → id < r.2.1.expressions.length

/-- `POkr` lifted over fuel exhaustion. -/
def ParseOk (d : ExpressionData) : Option PResult → Prop
  | none => True
  | some r => POkr d r

/-- The continuation passed to the leaf helpers behaves like the Pratt
entry point: it preserves the store invariant. -/
def RecSpec (rec_expr : ParseCont) : Prop :=
  ∀ input d bp, StoreInv d → ParseOk d (rec_expr input d bp)

/-- Token stream of `0 + 1 * 2` as the lexer would produce it. -/
def tokens_add_mul : List MToken :=
  [⟨.DecIntLiteral 0, ⟨0, 1⟩⟩, ⟨.Add, ⟨2, 3⟩⟩, ⟨.DecIntLiteral 1, ⟨4, 5⟩⟩,
   ⟨.Mult, ⟨6, 7⟩⟩, ⟨.DecIntLiteral 2, ⟨8, 9⟩⟩]

/-- Token stream of `0 * 1 + 2`. -/
def tokens_mul_add : List MToken :=
  [⟨.DecIntLiteral 0, ⟨0, 1⟩⟩, ⟨.Mult, ⟨2, 3⟩⟩, ⟨.DecIntLiteral 1, ⟨4, 5⟩⟩,
   ⟨.Add, ⟨6, 7⟩⟩, ⟨.DecIntLiteral 2, ⟨8, 9⟩⟩]

/-- Token stream of `0 + 1 + 2`. -/
def tokens_add_add : List MToken :=
  [⟨.DecIntLiteral 0, ⟨0, 1⟩⟩, ⟨.Add, ⟨2, 3⟩⟩, ⟨.DecIntLiteral 1, ⟨4, 5⟩⟩,
   ⟨.Add, ⟨6, 7⟩⟩, ⟨.DecIntLiteral 2, ⟨8, 9⟩⟩]

/-- Token stream of `0 * 1 * 2`. -/
def tokens_mul_mul : List MToken :=
  [⟨.DecIntLiteral 0, ⟨0, 1⟩⟩, ⟨.Mult, ⟨2, 3⟩⟩, ⟨.DecIntLiteral 1, ⟨4, 5⟩⟩,
   ⟨.Mult, ⟨6, 7⟩⟩, ⟨.DecIntLiteral 2, ⟨8, 9⟩⟩]

/-- Token stream of `0 || 1 || 2`. -/
def tokens_or_chain : List MToken :=
  [⟨.DecIntLiteral 0, ⟨0, 1⟩⟩, ⟨.LogicalOr, ⟨2, 4⟩⟩, ⟨.DecIntLiteral 1, ⟨5, 6⟩⟩,
   ⟨.LogicalOr, ⟨7, 9⟩⟩, ⟨.DecIntLiteral 2, ⟨10, 11⟩⟩]

/-- Token stream of a zero-argument call `f()`, the callee interned as 7. -/
def tokens_empty_call : List MToken :=
  [⟨.Identifier 7, ⟨0, 1⟩⟩, ⟨.LParen, ⟨1, 2⟩⟩, ⟨.RParen, ⟨2, 3⟩⟩]

/-- Token stream of `(foo)`, the identifier interned as 3. -/
def tokens_paren_ident : List MToken :=
  [⟨.LParen, ⟨0, 1⟩⟩, ⟨.Identifier 3, ⟨1, 4⟩⟩, ⟨.RParen, ⟨4, 5⟩⟩]

/-- Bit pattern of a quiet NaN double. -/
def nan_bits : Nat := 9221120237041090560

/-- Hand-built store holding a single NaN float literal. -/
def nan_store : ExpressionData :=
  ⟨[.Literal (.Float nan_bits)], [(0, ⟨0, 3⟩)]⟩

/-- Hand-built store with two integer literal nodes, used to compare two
call nodes whose argument lists have different lengths. -/
def two_lit_store : ExpressionData :=
  ⟨[.Literal (.Integer 0), .Literal (.Integer 1)], [(0, ⟨0, 1⟩), (1, ⟨2, 3⟩)]⟩

/-- Hand-built store: two identifier leaves with the same symbol but
different spans, and two `Add` nodes over them with identical root
spans. -/
def child_span_store : ExpressionData :=
  ⟨[.Identifier 1, .Identifier 1, .Binary .Add 0 0, .Binary .Add 1 1],
   [(0, ⟨0, 3⟩), (1, ⟨9, 12⟩), (2, ⟨0, 20⟩), (3, ⟨0, 20⟩)]⟩

theorem alloc_fst (d : ExpressionData) (e : Expression) (sp : Span) :
    (d.alloc e sp).1 = d.expressions.length := rfl

theorem alloc_snd_expressions (d : ExpressionData) (e : Expression) (sp : Span) :
    (d.alloc e sp).2.expressions = d.expressions ++ [e] := rfl

theorem alloc_snd_length (d : ExpressionData) (e : Expression) (sp : Span) :
    (d.alloc e sp).2.expressions.length = d.expressions.length + 1 := by
  simp [ExpressionData.alloc]

theorem get_exp?_alloc_self (d : ExpressionData) (e : Expression) (sp : Span) :
    (d.alloc e sp).2.get_exp? d.expressions.length = some e := by
  simp [ExpressionData.alloc, ExpressionData.get_exp?, List.getElem?_concat_length]

theorem get_exp?_alloc_lt (d : ExpressionData) (e : Expression) (sp : Span)
    (i : ExpressionId) (h : i < d.expressions.length) :
    (d.alloc e sp).2.get_exp? i = d.get_exp? i := by
  simp [ExpressionData.alloc, ExpressionData.get_exp?, List.getElem?_append_left h]

theorem get_span?_alloc_self (d : ExpressionData) (e : Expression) (sp : Span) :
    (d.alloc e sp).2.get_span? d.expressions.length = some sp := by
  simp [ExpressionData.alloc, ExpressionData.get_span?, lookup_span]

theorem get_span?_alloc_ne (d : ExpressionData) (e : Expression) (sp : Span)
    (i : ExpressionId) (h : i ≠ d.expressions.length) :
    (d.alloc e sp).2.get_span? i = d.get_span? i := by
  simp [ExpressionData.alloc, ExpressionData.get_span?, lookup_span, Ne.symm h]

theorem get_span_alloc_ne (d : ExpressionData) (e : Expression) (sp : Span)
    (i : ExpressionId) (h : i ≠ d.expressions.length) :
    (d.alloc e sp).2.get_span i = d.get_span i := by
  simp [ExpressionData.get_span, get_span?_alloc_ne d e sp i h]

theorem get_exp?_lt_length {d : ExpressionData} {i : ExpressionId} {e : Expression}
    (h : d.get_exp? i = some e) : i < d.expressions.length := by
  rcases List.getElem?_eq_some_iff.mp h with ⟨hlt, _⟩
  exact hlt

theorem get_exp?_alloc_cases {d : ExpressionData} {e x : Expression} {sp : Span}
    {i : ExpressionId} (h : (d.alloc e sp).2.get_exp? i = some x) :
    (i < d.expressions.length ∧ d.get_exp? i = some x) ∨
      (i = d.expressions.length ∧ x = e) := by
  by_cases hi : i < d.expressions.length
  · exact Or.inl ⟨hi, by rw [← get_exp?_alloc_lt d e sp i hi]; exact h⟩
  · refine Or.inr ?_
    have hlen : i < d.expressions.length + 1 := by
      have := get_exp?_lt_length h
      simpa [alloc_snd_length] using this
    have hie : i = d.expressions.length :=
      Nat.le_antisymm (Nat.lt_succ_iff.mp hlen) (Nat.le_of_not_lt hi)
    subst hie
    rw [get_exp?_alloc_self] at h
    exact ⟨rfl, (Option.some.injEq _ _).mp h |>.symm⟩

theorem StoreInv_empty : StoreInv emptyData := by
  constructor
  · intro i hi
    simp [emptyData] at hi
  · intro i op l r he
    simp [emptyData, ExpressionData.get_exp?] at he

theorem StoreInv.alloc_aux {d : ExpressionData} (h : StoreInv d)
    (e : Expression) (sp : Span)
    (he : ∀ op l r, e = Expression.Binary op l r →
      l < d.expressions.length ∧ r < d.expressions.length ∧
        sp = merge (d.get_span l) (d.get_span r)) :
    StoreInv (d.alloc e sp).2 := by
  obtain ⟨hsp, hbin⟩ := h
  constructor
  · intro i hi
    rw [alloc_snd_length] at hi
    by_cases hlt : i < d.expressions.length
    · rw [get_span?_alloc_ne d e sp i (Nat.ne_of_lt hlt)]
      exact hsp i hlt
    · have hie : i = d.expressions.length :=
        Nat.le_antisymm (Nat.lt_succ_iff.mp hi) (Nat.le_of_not_lt hlt)
      rw [hie, get_span?_alloc_self]
      rfl
  · intro i op l r hei
    rcases get_exp?_alloc_cases hei with ⟨hlt, hold⟩ | ⟨hieq, hee⟩
    · obtain ⟨hl, hr, hspan⟩ := hbin i op l r hold
      refine ⟨?_, ?_, ?_⟩
      · rw [alloc_snd_length]; exact Nat.lt_succ_of_lt hl
      · rw [alloc_snd_length]; exact Nat.lt_succ_of_lt hr
      · rw [get_span?_alloc_ne d e sp i (Nat.ne_of_lt hlt),
          get_span_alloc_ne d e sp l (Nat.ne_of_lt hl),
          get_span_alloc_ne d e sp r (Nat.ne_of_lt hr)]
        exact hspan
    · obtain ⟨hl, hr, hsp2⟩ := he op l r hee.symm
      refine ⟨?_, ?_, ?_⟩
      · rw [alloc_snd_length]; exact Nat.lt_succ_of_lt hl
      · rw [alloc_snd_length]; exact Nat.lt_succ_of_lt hr
      · rw [hieq, get_span?_alloc_self,
          get_span_alloc_ne d e sp l (Nat.ne_of_lt hl),
          get_span_alloc_ne d e sp r (Nat.ne_of_lt hr), hsp2]

theorem StoreInv.alloc_nonbin {d : ExpressionData} (h : StoreInv d)
    {e : Expression} (sp : Span)
    (he : ∀ op l r, e ≠ Expression.Binary op l r) :
    StoreInv (d.alloc e sp).2 :=
  StoreInv.alloc_aux h e sp fun op l r heq => absurd heq (he op l r)

theorem StoreInv.alloc_bin {d : ExpressionData} (h : StoreInv d) (op : BinaryOp)
    {l r : ExpressionId} (hl : l < d.expressions.length)
    (hr : r < d.expressions.length) :
    StoreInv (d.alloc_bin_op op l r).2 :=
  StoreInv.alloc_aux h (.Binary op l r) (merge (d.get_span l) (d.get_span r))
    fun op2 l2 r2 heq => by
      injection heq with hop hl2 hr2
      subst hop; subst hl2; subst hr2
      exact ⟨hl, hr, rfl⟩

theorem POkr_mono {d0 d : ExpressionData} {r : PResult}
    (hle : d0.expressions.length ≤ d.expressions.length) (h : POkr d r) :
    POkr d0 r :=
  ⟨h.1, Nat.le_trans hle h.2.1, h.2.2⟩

theorem ParseOk_mono {d0 d : ExpressionData} {r : Option PResult}
    (hle : d0.expressions.length ≤ d.expressions.length) (h : ParseOk d r) :
    ParseOk d0 r := by
  cases r with
  | none => trivial
  | some r => exact POkr_mono hle h

theorem POkr_err {d : ExpressionData} (h : StoreInv d) (e : ParserError)
    (i : ParseInput) : POkr d (.error e, d, i) :=
  ⟨h, Nat.le_refl _, fun _ hid => nomatch hid⟩

theorem POkr_alloc_nonbin {d : ExpressionData} (h : StoreInv d)
    {e : Expression} (sp : Span) (i : ParseInput)
    (he : ∀ op l r, e ≠ Expression.Binary op l r) :
    POkr d (.ok (d.alloc e sp).1, (d.alloc e sp).2, i) := by
  refine ⟨StoreInv.alloc_nonbin h sp he, ?_, ?_⟩
  · rw [alloc_snd_length]; exact Nat.le_succ _
  · intro id hid
    cases hid
    rw [alloc_snd_length]
    exact Nat.lt_succ_self _

theorem next?_eq_some {i : ParseInput} {t : MToken} {i2 : ParseInput}
    (h : i.next? = some (t, i2)) :
    i.tokens[i.index]? = some t ∧ i2 = i.advance := by
  unfold ParseInput.next? ParseInput.peek? at h
  cases hp : i.tokens[i.index]? with
  | none => rw [hp] at h; simp at h
  | some t2 =>
    rw [hp] at h
    simp only [Option.map_some', Option.some.injEq, Prod.mk.injEq] at h
    exact ⟨by rw [h.1], h.2.symm⟩

theorem POkr_pass {d d1 : ExpressionData} (h : StoreInv d1)
    (hle : d.expressions.length ≤ d1.expressions.length) (e : ParserError)
    (i : ParseInput) : POkr d (.error e, d1, i) :=
  ⟨h, hle, fun _ hid => nomatch hid⟩

theorem POkr_ok {d d1 : ExpressionData} (h : StoreInv d1)
    (hle : d.expressions.length ≤ d1.expressions.length)
    {id : ExpressionId} (hid : id < d1.expressions.length) (i : ParseInput) :
    POkr d (.ok id, d1, i) :=
  ⟨h, hle, fun _ hid2 => by cases hid2; exact hid⟩

theorem parse_ident_expr_ok (input : ParseInput) {d : ExpressionData}
    (h : StoreInv d) : POkr d (parse_ident_expr input d) := by
  unfold parse_ident_expr
  cases input.next? with
  | none => exact POkr_err h _ _
  | some ti =>
    obtain ⟨⟨ttok, tspan⟩, input1⟩ := ti
    cases ttok <;> first
      | exact POkr_err h _ _
      | exact POkr_alloc_nonbin h _ _ fun op l r => by simp

theorem parse_literal_ok (input : ParseInput) {d : ExpressionData}
    (h : StoreInv d) : POkr d (parse_literal input d) := by
  unfold parse_literal
  cases input.next? with
  | none => exact POkr_err h _ _
  | some ti =>
    obtain ⟨⟨ttok, tspan⟩, input1⟩ := ti
    cases ttok <;> first
      | exact POkr_err h _ _
      | exact POkr_alloc_nonbin h _ _ fun op l r => by simp

theorem parse_parenthetical_ok {rec_expr : ParseCont} (hrec : RecSpec rec_expr)
    (input : ParseInput) {d : ExpressionData} (h : StoreInv d) :
    ParseOk d (parse_parenthetical rec_expr input d) := by
  unfold parse_parenthetical
  cases assert_next input .LParen "Left parenthesis \x28" with
  | error e => exact POkr_err h _ _
  | ok si =>
    obtain ⟨sp1, input1⟩ := si
    dsimp only
    have h1 := hrec input1 d 0 h
    cases hr : rec_expr input1 d 0 with
    | none => trivial
    | some r =>
      rw [hr] at h1
      obtain ⟨r1, d1, i1⟩ := r
      cases r1 with
      | error e => exact h1
      | ok inner =>
        dsimp only
        cases assert_next i1 .RParen "Right parenthesis \x29" with
        | error e => exact POkr_pass h1.1 h1.2.1 _ _
        | ok si2 =>
          obtain ⟨sp2, i2⟩ := si2
          exact POkr_ok h1.1 h1.2.1 (h1.2.2 inner rfl) _

theorem parse_call_args_ok {rec_expr : ParseCont} (hrec : RecSpec rec_expr) :
    ∀ (fuel : Nat) (input : ParseInput) (d : ExpressionData) (ident : NameId)
      (lsp : Span) (acc : List ExpressionId), StoreInv d →
      ParseOk d (parse_call_args rec_expr fuel input d ident lsp acc) := by
  intro fuel
  induction fuel with
  | zero => intro input d ident lsp acc h; trivial
  | succ f ih =>
    intro input d ident lsp acc h
    unfold parse_call_args
    have h1 := hrec input d 0 h
    cases hr : rec_expr input d 0 with
    | none => trivial
    | some r =>
      rw [hr] at h1
      obtain ⟨r1, d1, i1⟩ := r
      cases r1 with
      | error e => exact h1
      | ok arg =>
        dsimp only
        cases i1.next? with
        | none => exact POkr_pass h1.1 h1.2.1 _ _
        | some ti =>
          obtain ⟨⟨ttok, tspan⟩, i2⟩ := ti
          cases ttok <;> first
            | exact ParseOk_mono h1.2.1 (ih i2 d1 ident lsp (acc ++ [arg]) h1.1)
            | exact POkr_mono h1.2.1
                (POkr_alloc_nonbin h1.1 _ _ fun op l r => by simp)
            | exact POkr_pass h1.1 h1.2.1 _ _

theorem parse_call_ok {rec_expr : ParseCont} (hrec : RecSpec rec_expr)
    (fuel : Nat) (input : ParseInput) {d : ExpressionData} (h : StoreInv d) :
    ParseOk d (parse_call rec_expr fuel input d) := by
  unfold parse_call
  cases input.next? with
  | none => exact POkr_err h _ _
  | some ti =>
    obtain ⟨⟨ftok, fspan⟩, input1⟩ := ti
    cases ftok
    case Identifier ident =>
      dsimp only
      cases assert_next input1 .LParen "Function arguments" with
      | error e => exact POkr_err h _ _
      | ok si =>
        obtain ⟨lsp, input2⟩ := si
        exact parse_call_args_ok hrec fuel input2 d ident lsp [] h
    all_goals exact POkr_err h _ _

theorem parse_leaf_ok {rec_expr : ParseCont} (hrec : RecSpec rec_expr)
    (fuel : Nat) (input : ParseInput) {d : ExpressionData} (h : StoreInv d) :
    ParseOk d (parse_leaf rec_expr fuel input d) := by
  unfold parse_leaf
  cases input.peek? with
  | none => exact POkr_err h _ _
  | some t =>
    obtain ⟨ttok, tspan⟩ := t
    dsimp only
    by_cases h1 : ttok = Token.LParen
    · rw [if_pos h1]
      exact parse_parenthetical_ok hrec input h
    · rw [if_neg h1]
      by_cases h2 : (match input.peekn 0, input.peekn 1 with
          | some (.Identifier _), some .LParen => true
          | _, _ => false) = true
      · rw [if_pos h2]
        exact parse_call_ok hrec fuel input h
      · rw [if_neg h2]
        cases ttok <;> first
          | exact parse_ident_expr_ok input h
          | exact parse_literal_ok input h

theorem pratt_loop_ok {rec_expr : ParseCont} (hrec : RecSpec rec_expr) :
    ∀ (fuel : Nat) (input : ParseInput) (d : ExpressionData) (min_bp : Nat)
      (lhs : ExpressionId), StoreInv d → lhs < d.expressions.length →
      ParseOk d (pratt_loop rec_expr fuel input d min_bp lhs) := by
  intro fuel
  induction fuel with
  | zero => intro input d mbp lhs h hl; trivial
  | succ f ih =>
    intro input d mbp lhs h hl
    unfold pratt_loop
    cases hto : try_parse_bin_op input with
    | mk o input1 =>
      cases o with
      | none => exact POkr_ok h (Nat.le_refl _) hl _
      | some os =>
        obtain ⟨op, spn⟩ := os
        dsimp only
        by_cases hbp : (infix_binding_power op).1 < mbp
        · rw [if_pos hbp]
          exact POkr_ok h (Nat.le_refl _) hl _
        · rw [if_neg hbp]
          have h1 := hrec input1 d (infix_binding_power op).2 h
          cases hr : rec_expr input1 d (infix_binding_power op).2 with
          | none => trivial
          | some r =>
            rw [hr] at h1
            obtain ⟨r1, d1, i1⟩ := r
            cases r1 with
            | error e => exact h1
            | ok rhs =>
              have hlhs1 : lhs < d1.expressions.length :=
                Nat.lt_of_lt_of_le hl h1.2.1
              have hrhs1 : rhs < d1.expressions.length := h1.2.2 rhs rfl
              have hinv2 : StoreInv (d1.alloc_bin_op op lhs rhs).2 :=
                StoreInv.alloc_bin h1.1 op hlhs1 hrhs1
              have hlen2 : (d1.alloc_bin_op op lhs rhs).2.expressions.length =
                  d1.expressions.length + 1 :=
                alloc_snd_length d1 _ _
              have hid2 : (d1.alloc_bin_op op lhs rhs).1 <
                  (d1.alloc_bin_op op lhs rhs).2.expressions.length := by
                rw [hlen2]
                exact Nat.lt_succ_self _
              have hloop := ih i1 (d1.alloc_bin_op op lhs rhs).2 mbp
                (d1.alloc_bin_op op lhs rhs).1 hinv2 hid2
              refine ParseOk_mono ?_ hloop
              rw [hlen2]
              exact Nat.le_trans h1.2.1 (Nat.le_succ _)

theorem pratt_parse_ok :
    ∀ (fuel : Nat) (input : ParseInput) (d : ExpressionData) (min_bp : Nat),
      StoreInv d → ParseOk d (pratt_parse fuel input d min_bp) := by
  intro fuel
  induction fuel with
  | zero => intro input d mbp h; trivial
  | succ f ih =>
    intro input d mbp h
    have hrec : RecSpec (pratt_parse f) := fun i2 d2 bp h2 => ih i2 d2 bp h2
    unfold pratt_parse
    have h1 := parse_leaf_ok hrec f input h
    cases hl : parse_leaf (pratt_parse f) f input d with
    | none => trivial
    | some r =>
      rw [hl] at h1
      obtain ⟨r1, d1, i1⟩ := r
      cases r1 with
      | error e => exact h1
      | ok lhs =>
        exact ParseOk_mono h1.2.1
          (pratt_loop_ok hrec f i1 d1 mbp lhs h1.1 (h1.2.2 lhs rfl))

theorem parse_call_args_span {rec_expr : ParseCont} :
    ∀ (fuel : Nat) (input : ParseInput) (d : ExpressionData) (ident : NameId)
      (lsp : Span) (acc : List ExpressionId) (id : ExpressionId)
      (d2 : ExpressionData) (i2 : ParseInput),
      parse_call_args rec_expr fuel input d ident lsp acc =
        some (.ok id, d2, i2) →
      ∃ (rsp : Span) (j : Nat), i2.index = j + 1 ∧
        i2.tokens[j]? = some ⟨Token.RParen, rsp⟩ ∧
        d2.get_span? id = some (merge lsp rsp) := by
  intro fuel
  induction fuel with
  | zero =>
    intro input d ident lsp acc id d2 i2 h
    exact absurd h (by simp [parse_call_args])
  | succ f ih =>
    intro input d ident lsp acc id d2 i2 h
    unfold parse_call_args at h
    cases hr : rec_expr input d 0 with
    | none => rw [hr] at h; exact absurd h (by simp)
    | some r =>
      rw [hr] at h
      obtain ⟨r1, d1, i1⟩ := r
      cases r1 with
      | error e => simp at h
      | ok arg =>
        dsimp only at h
        cases hn : i1.next? with
        | none => rw [hn] at h; simp at h
        | some ti =>
          rw [hn] at h
          obtain ⟨t, i3⟩ := ti
          obtain ⟨hn1, hn2⟩ := next?_eq_some hn
          obtain ⟨ttok, tspan⟩ := t
          cases ttok
          case Comma => exact ih i3 d1 ident lsp (acc ++ [arg]) id d2 i2 h
          case RParen =>
            simp only [Option.some.injEq, Prod.mk.injEq, Except.ok.injEq] at h
            obtain ⟨hid, hd2, hi2⟩ := h
            refine ⟨tspan, i1.index, ?_, ?_, ?_⟩
            · rw [← hi2, hn2]; rfl
            · rw [← hi2, hn2]
              exact hn1
            · rw [← hd2, ← hid]
              exact get_span?_alloc_self d1 _ _
          all_goals simp at h

theorem parse_expression_store_ok {fuel : Nat} {input : ParseInput}
    {d : ExpressionData} (h : StoreInv d) :
    ParseOk d (parse_expression fuel input d) :=
  pratt_parse_ok fuel input d 0 h

theorem get_exp?_isSome {d : ExpressionData} {i : ExpressionId}
    (h : i < d.expressions.length) : ∃ e, d.get_exp? i = some e :=
  ⟨d.expressions.get ⟨i, h⟩, List.getElem?_eq_getElem h⟩

theorem fuel_step {c i f : Nat} (hc : c < i) (hf : 2 * i + 1 ≤ f + 1) :
    2 * c + 1 ≤ f := by omega

theorem fuel_zero {i : Nat} (hf : 2 * i + 1 ≤ 0) : False := by omega

theorem well_formed_span {d : ExpressionData} (h : well_formed d = true)
    {i : ExpressionId} (hi : i < d.expressions.length) :
    (d.get_span? i).isSome = true := by
  have h2 := List.all_eq_true.mp h i (List.mem_range.mpr hi)
  exact ((Bool.and_eq_true _ _).mp h2).1

theorem well_formed_child {d : ExpressionData} (h : well_formed d = true)
    {i : ExpressionId} {e : Expression} (he : d.get_exp? i = some e)
    {c : ExpressionId} (hc : c ∈ child_ids e) : c < i := by
  have hi : i < d.expressions.length := get_exp?_lt_length he
  have h2 :=
    ((Bool.and_eq_true _ _).mp (List.all_eq_true.mp h i (List.mem_range.mpr hi))).2
  rw [he] at h2
  exact of_decide_eq_true (List.all_eq_true.mp h2 c hc)

theorem no_nan_literal {d : ExpressionData} (h : no_nan d = true)
    {i : ExpressionId} {lit : Literal}
    (he : d.get_exp? i = some (.Literal lit)) : lit.is_nan = false := by
  have hm : Expression.Literal lit ∈ d.expressions := List.getElem?_mem he
  have h2 := List.all_eq_true.mp h _ hm
  simpa using h2

theorem Literal.context_eq_refl {lit : Literal} (h : lit.is_nan = false) :
    lit.context_eq lit = true := by
  cases lit with
  | Integer v => simp [Literal.context_eq]
  | Float b =>
    simp only [Literal.is_nan] at h
    by_cases hz : f64_is_zero b = true <;>
      simp [Literal.context_eq, f64_eq, h, hz]

theorem args_context_eq_refl (rec_id : ExpressionId → ExpressionId → Option Bool)
    (cs : List ExpressionId) (h : ∀ c ∈ cs, rec_id c c = some true) :
    args_context_eq rec_id cs cs = some true := by
  induction cs with
  | nil => rfl
  | cons c cs ih =>
    have h1 : rec_id c c = some true := h c (List.mem_cons_self c cs)
    simp only [args_context_eq, h1]
    exact ih fun x hx => h x (List.mem_cons_of_mem c hx)

theorem exp_context_eq_refl {d : ExpressionData}
    (hw : well_formed d = true) (hn : no_nan d = true) :
    ∀ (fuel : Nat) (i : ExpressionId) (e : Expression),
      d.get_exp? i = some e → 2 * i + 1 ≤ fuel →
      exp_context_eq fuel d e e = some true := by
  intro fuel
  induction fuel with
  | zero => intro i e _ hf; exact absurd hf fun h2 => fuel_zero h2
  | succ f ih =>
    intro i e he hf
    have hi : i < d.expressions.length := get_exp?_lt_length he
    cases e with
    | Identifier x => simp [exp_context_eq]
    | Literal l =>
      have hl := no_nan_literal hn he
      simp [exp_context_eq, Literal.context_eq_refl hl]
    | Invert c =>
      have hc : c < i := well_formed_child hw he (by simp [child_ids])
      have hcl : c < d.expressions.length := Nat.lt_trans hc hi
      obtain ⟨ec, hec⟩ := get_exp?_isSome hcl
      have hrec : exp_context_eq f d ec ec = some true :=
        ih c ec hec (fuel_step hc hf)
      simp [exp_context_eq, hec, hrec]
    | Binary op l r =>
      have hlc : l < i := well_formed_child hw he (by simp [child_ids])
      have hrc : r < i := well_formed_child hw he (by simp [child_ids])
      have hll : l < d.expressions.length := Nat.lt_trans hlc hi
      have hrl : r < d.expressions.length := Nat.lt_trans hrc hi
      obtain ⟨el, hel⟩ := get_exp?_isSome hll
      obtain ⟨er, her⟩ := get_exp?_isSome hrl
      have hrecl : exp_context_eq f d el el = some true :=
        ih l el hel (fuel_step hlc hf)
      have hrecr : exp_context_eq f d er er = some true :=
        ih r er her (fuel_step hrc hf)
      simp [exp_context_eq, hel, her, hrecl, hrecr]
    | Call ident args =>
      have hargs : ∀ c ∈ args,
          id_context_eq_via (exp_context_eq f d) d c c = some true := by
        intro c hc
        have hci : c < i := well_formed_child hw he (by simpa [child_ids] using hc)
        have hcl : c < d.expressions.length := Nat.lt_trans hci hi
        obtain ⟨sc, hsc⟩ := Option.isSome_iff_exists.mp (well_formed_span hw hcl)
        obtain ⟨ec, hec⟩ := get_exp?_isSome hcl
        have hrec : exp_context_eq f d ec ec = some true :=
          ih c ec hec (fuel_step hci hf)
        simp [id_context_eq_via, hsc, hec, hrec]
      simp [exp_context_eq, args_context_eq_refl _ args hargs]

/-- C4 amended: `context_eq(x, x)` is true for every handle of a
well-formed store none of whose float literals is NaN (with enough fuel
for the subtree); a NaN float literal compares unequal to itself, as the
counterexample shows, so reflexivity holds exactly away from NaN. -/
theorem context_eq_refl_of_no_nan (d : ExpressionData) (i : ExpressionId)
    (fuel : Nat) (hw : well_formed d = true) (hn : no_nan d = true)
    (hi : i < d.expressions.length) (hf : 2 * i + 1 ≤ fuel) :
    context_eq fuel d i i = some true := by
  obtain ⟨si, hsi⟩ := Option.isSome_iff_exists.mp (well_formed_span hw hi)
  obtain ⟨ei, hei⟩ := get_exp?_isSome hi
  have hrec := exp_context_eq_refl hw hn fuel i ei hei hf
  simp [context_eq, id_context_eq_via, hsi, hei, hrec]

/-- Witness for reflexivity on a concrete NaN-free store. -/
theorem context_eq_refl_of_no_nan_witness :
    well_formed two_lit_store = true ∧ no_nan two_lit_store = true ∧
      context_eq 5 two_lit_store 1 1 = some true :=
  ⟨by decide, by decide,
    context_eq_refl_of_no_nan two_lit_store 1 5 (by decide) (by decide)
      (by decide) (by decide)⟩

/-- C1: refuted as stated; the code diverges from the spec here.  The
binding-power table does not give every operator the left-associative
pair: `infix_binding_power` maps `LogicalOr` to `(10, 1)`, not `(10, 11)`,
and consequently the chain `0 || 1 || 2` parses right-nested: the root
node 4 is `LogicalOr 0 3` whose right child 3 is `LogicalOr 1 2`. -/
theorem logicalOr_binding_power_right_associates :
    infix_binding_power .LogicalOr = (10, 1) ∧
      parse_expression 20 ⟨tokens_or_chain, 0⟩ emptyData =
        some (.ok 4,
          ⟨[.Literal (.Integer 0), .Literal (.Integer 1), .Literal (.Integer 2),
            .Binary .LogicalOr 1 2, .Binary .LogicalOr 0 3],
           [(4, ⟨0, 11⟩), (3, ⟨5, 11⟩), (2, ⟨10, 11⟩), (1, ⟨5, 6⟩), (0, ⟨0, 1⟩)]⟩,
          ⟨tokens_or_chain, 5⟩) :=
  ⟨rfl, rfl⟩

/-- C2: refuted as stated; the code diverges from the spec here.
`Call::context_eq` zips the argument lists and so never examines a length
mismatch: two call nodes with the same callee whose argument lists are
`[0]` and `[0, 1]` compare equal even though the lengths differ. -/
theorem call_context_eq_ignores_extra_args :
    exp_context_eq 5 two_lit_store (.Call 7 [0]) (.Call 7 [0, 1]) = some true := rfl

/-- C6: parsing `0 + 1 * 2` yields `Add(Literal 0, Multiply(Literal 1,
Literal 2))`, parsing `0 * 1 + 2` yields `Add(Multiply(Literal 0,
Literal 1), Literal 2)`, and the chains `0 + 1 + 2` and `0 * 1 * 2` parse
left-nested. -/
theorem parse_precedence_and_associativity :
    (parse_expression 20 ⟨tokens_add_mul, 0⟩ emptyData =
      some (.ok 4,
        ⟨[.Literal (.Integer 0), .Literal (.Integer 1), .Literal (.Integer 2),
          .Binary .Multiply 1 2, .Binary .Add 0 3],
         [(4, ⟨0, 9⟩), (3, ⟨4, 9⟩), (2, ⟨8, 9⟩), (1, ⟨4, 5⟩), (0, ⟨0, 1⟩)]⟩,
        ⟨tokens_add_mul, 5⟩)) ∧
    (parse_expression 20 ⟨tokens_mul_add, 0⟩ emptyData =
      some (.ok 4,
        ⟨[.Literal (.Integer 0), .Literal (.Integer 1), .Binary .Multiply 0 1,
          .Literal (.Integer 2), .Binary .Add 2 3],
         [(4, ⟨0, 9⟩), (3, ⟨8, 9⟩), (2, ⟨0, 5⟩), (1, ⟨4, 5⟩), (0, ⟨0, 1⟩)]⟩,
        ⟨tokens_mul_add, 5⟩)) ∧
    (parse_expression 20 ⟨tokens_add_add, 0⟩ emptyData =
      some (.ok 4,
        ⟨[.Literal (.Integer 0), .Literal (.Integer 1), .Binary .Add 0 1,
          .Literal (.Integer 2), .Binary .Add 2 3],
         [(4, ⟨0, 9⟩), (3, ⟨8, 9⟩), (2, ⟨0, 5⟩), (1, ⟨4, 5⟩), (0, ⟨0, 1⟩)]⟩,
        ⟨tokens_add_add, 5⟩)) ∧
    (parse_expression 20 ⟨tokens_mul_mul, 0⟩ emptyData =
      some (.ok 4,
        ⟨[.Literal (.Integer 0), .Literal (.Integer 1), .Binary .Multiply 0 1,
          .Literal (.Integer 2), .Binary .Multiply 2 3],
         [(4, ⟨0, 9⟩), (3, ⟨8, 9⟩), (2, ⟨0, 5⟩), (1, ⟨4, 5⟩), (0, ⟨0, 1⟩)]⟩,
        ⟨tokens_mul_mul, 5⟩)) :=
  ⟨rfl, rfl, rfl, rfl⟩

/-- C3 counterexample: the claim is false on the code.  On the token
stream of `f()` parsing does not succeed with an empty-argument call node:
it fails with the generic unexpected-token error (the argument loop parses
an expression before ever looking for the closing parenthesis), leaving
the store untouched. -/
theorem parse_zero_arg_call_fails :
    parse_expression 20 ⟨tokens_empty_call, 0⟩ emptyData =
      some (.error (.UnexpectedToken "Parse Literal"), emptyData,
        ⟨tokens_empty_call, 3⟩) := rfl

/-- C3 amended: `parse_call` requires a one-or-more argument list: for an
identifier immediately followed by an opening and then a closing
parenthesis, parsing fails with the unexpected-token error and allocates
no node — the store comes back unchanged. -/
theorem parse_call_requires_one_argument (fuel : Nat) (d : ExpressionData)
    (n : NameId) (s1 s2 s3 : Span) :
    parse_expression (fuel + 4)
        ⟨[⟨.Identifier n, s1⟩, ⟨.LParen, s2⟩, ⟨.RParen, s3⟩], 0⟩ d =
      some (.error (.UnexpectedToken "Parse Literal"), d,
        ⟨[⟨.Identifier n, s1⟩, ⟨.LParen, s2⟩, ⟨.RParen, s3⟩], 3⟩) := rfl

/-- C4 counterexample: the claim is false on the code.  A float literal
whose value is NaN does not compare context-equal to itself: on the store
holding exactly that node, `context_eq` at the node's own handle returns
false, because `Literal::context_eq` is the underlying PartialEq and IEEE
equality makes NaN unequal to itself. -/
theorem context_eq_nan_not_reflexive :
    context_eq 5 nan_store 0 0 = some false := rfl

/-- C5 counterexample: the claim is false on the code.  Two `Add` nodes
whose identifier children carry the same symbol but different spans, under
identical root spans, compare context-equal: the binary comparison fetches
the child nodes with `get_exp` and never compares the child spans. -/
theorem binary_context_eq_ignores_child_spans_cex :
    context_eq 6 child_span_store 2 3 = some true := rfl

/-- C5 amended: `context_eq` checks spans at the two handles it is given
(returning false on a root span mismatch) and at call-argument handles,
but the binary and unary comparisons resolve their children with `get_exp`
and compare the child nodes only: the result is determined by the child
nodes alone, with no hypothesis about — and hence no sensitivity to — the
children's spans. -/
theorem context_eq_child_span_independent :
    (∀ (fuel : Nat) (d : ExpressionData) (a b : ExpressionId) (sa sb : Span),
        d.get_span? a = some sa → d.get_span? b = some sb → sa ≠ sb →
        context_eq fuel d a b = some false) ∧
    (∀ (fuel : Nat) (d : ExpressionData) (x y : ExpressionId)
        (ex ey : Expression) (v : Bool),
        d.get_exp? x = some ex → d.get_exp? y = some ey →
        exp_context_eq fuel d ex ey = some v →
        exp_context_eq (fuel + 1) d (.Invert x) (.Invert y) = some v) ∧
    (∀ (fuel : Nat) (d : ExpressionData) (op : BinaryOp)
        (lx rx ly ry : ExpressionId) (elx ely erx ery : Expression) (u v : Bool),
        d.get_exp? lx = some elx → d.get_exp? ly = some ely →
        d.get_exp? rx = some erx → d.get_exp? ry = some ery →
        exp_context_eq fuel d elx ely = some u →
        exp_context_eq fuel d erx ery = some v →
        exp_context_eq (fuel + 1) d (.Binary op lx rx) (.Binary op ly ry) =
          some (u && v)) := by
  refine ⟨?_, ?_, ?_⟩
  · intro fuel d a b sa sb h1 h2 hne
    simp [context_eq, id_context_eq_via, h1, h2, hne]
  · intro fuel d x y ex ey v h1 h2 h3
    simp [exp_context_eq, h1, h2, h3]
  · intro fuel d op lx rx ly ry elx ely erx ery u v h1 h2 h3 h4 h5 h6
    simp [exp_context_eq, h1, h2, h3, h4, h5, h6]

/-- Witness for the child-span independence statement at a concrete store:
the two `Add` nodes over differently-spanned identifier children compare
through their child nodes alone. -/
theorem context_eq_child_span_independent_witness :
    exp_context_eq 2 child_span_store (.Binary .Add 0 0) (.Binary .Add 1 1) =
      some (true && true) :=
  context_eq_child_span_independent.2.2 1 child_span_store .Add 0 0 1 1
    (.Identifier 1) (.Identifier 1) (.Identifier 1) (.Identifier 1) true true
    rfl rfl rfl rfl rfl rfl

/-- C8: `parse_parenthetical` consumes the opening parenthesis, hands the
cursor to the expression parser, requires the closing parenthesis, and
returns exactly the inner expression's handle with the store exactly as
the inner parse left it — no node for the parentheses; the handle's span
is therefore whatever the inner parse recorded.  The second conjunct runs
the whole pipeline on the tokens of a parenthesized identifier: the store
ends with a single identifier node whose span covers only the identifier
token, not the parentheses. -/
theorem parse_parenthetical_transparent :
    (∀ (rec_expr : ParseCont) (input : ParseInput) (data d : ExpressionData)
        (lsp rsp : Span) (inner : ExpressionId) (i : ParseInput),
        input.peek? = some ⟨.LParen, lsp⟩ →
        rec_expr input.advance data 0 = some (.ok inner, d, i) →
        i.peek? = some ⟨.RParen, rsp⟩ →
        parse_parenthetical rec_expr input data = some (.ok inner, d, i.advance)) ∧
    (parse_expression 20 ⟨tokens_paren_ident, 0⟩ emptyData =
      some (.ok 0, ⟨[.Identifier 3], [(0, ⟨1, 4⟩)]⟩, ⟨tokens_paren_ident, 3⟩)) := by
  constructor
  · intro rec_expr input data d lsp rsp inner i h1 h2 h3
    simp [parse_parenthetical, assert_next, h1, h2, h3]
  · rfl

/-- Witness for the parenthetical transparency statement at a concrete
input and continuation. -/
theorem parse_parenthetical_transparent_witness :
    parse_parenthetical (fun i d _ => some (.ok 5, d, i))
        ⟨[⟨.LParen, ⟨0, 1⟩⟩, ⟨.RParen, ⟨1, 2⟩⟩], 0⟩ emptyData =
      some (.ok 5, emptyData, ⟨[⟨.LParen, ⟨0, 1⟩⟩, ⟨.RParen, ⟨1, 2⟩⟩], 2⟩) :=
  parse_parenthetical_transparent.1 (fun i d _ => some (.ok 5, d, i))
    ⟨[⟨.LParen, ⟨0, 1⟩⟩, ⟨.RParen, ⟨1, 2⟩⟩], 0⟩ emptyData emptyData
    ⟨0, 1⟩ ⟨1, 2⟩ 5 ⟨[⟨.LParen, ⟨0, 1⟩⟩, ⟨.RParen, ⟨1, 2⟩⟩], 1⟩ rfl rfl rfl

/-- C9: a string-literal token where an expression is expected fails with
the typed unsupported-construct error — not the generic unexpected-token
error — consuming the one token and allocating nothing: the store comes
back exactly as it went in. -/
theorem string_literal_unsupported_no_alloc (n : Nat) (d : ExpressionData)
    (toks : List MToken) (idx : Nat) (s : String) (sp : Span)
    (h : toks[idx]? = some ⟨.StringLiteral s, sp⟩) :
    parse_expression (n + 2) ⟨toks, idx⟩ d =
      some (.error (.Unsupported "StringLiteral"), d, ⟨toks, idx + 1⟩) := by
  show pratt_parse (n + 1 + 1) ⟨toks, idx⟩ d 0 = _
  simp [pratt_parse, parse_leaf, parse_literal, ParseInput.peek?, ParseInput.peekn,
    ParseInput.next?, ParseInput.advance, h]

/-- Witness for the string-literal failure at a concrete input. -/
theorem string_literal_unsupported_no_alloc_witness :
    parse_expression 2 ⟨[⟨.StringLiteral "abc", ⟨0, 5⟩⟩], 0⟩ emptyData =
      some (.error (.Unsupported "StringLiteral"), emptyData,
        ⟨[⟨.StringLiteral "abc", ⟨0, 5⟩⟩], 1⟩) :=
  string_literal_unsupported_no_alloc 0 emptyData
    [⟨.StringLiteral "abc", ⟨0, 5⟩⟩] 0 "abc" ⟨0, 5⟩ rfl

/-- C10: the handle `alloc` returns is immediately valid for both lookups
— `get_exp` finds the node and `get_span` finds the span recorded with it
— and stays valid as the store grows by later allocations: lookup is total
over handles the store itself produced. -/
theorem alloc_lookup_total :
    (∀ (d : ExpressionData) (e : Expression) (sp : Span),
        (d.alloc e sp).2.get_exp? (d.alloc e sp).1 = some e ∧
        (d.alloc e sp).2.get_span? (d.alloc e sp).1 = some sp) ∧
    (∀ (d : ExpressionData) (e : Expression) (sp : Span) (i : ExpressionId),
        i < d.expressions.length →
        (d.alloc e sp).2.get_exp? i = d.get_exp? i ∧
        (d.alloc e sp).2.get_span? i = d.get_span? i) := by
  constructor
  · intro d e sp
    exact ⟨get_exp?_alloc_self d e sp, get_span?_alloc_self d e sp⟩
  · intro d e sp i hi
    exact ⟨get_exp?_alloc_lt d e sp i hi, get_span?_alloc_ne d e sp i (Nat.ne_of_lt hi)⟩

/-- C7: span composition.  First: `alloc_bin_op` always records, under the
fresh handle, the merge of its operands' spans — the caller never supplies
the span.  Second: starting from the empty store, the store left behind by
any parse run satisfies the binary span-composition invariant: every
binary node's recorded span is the merge of its operands' recorded spans.
Third: a call node produced by the argument loop of `parse_call` records
the merge of the opening parenthesis span it was given and the span of
the closing parenthesis token it consumed last. -/
theorem span_composition_invariant :
    (∀ (d : ExpressionData) (op : BinaryOp) (l r : ExpressionId),
        (d.alloc_bin_op op l r).2.get_span? (d.alloc_bin_op op l r).1 =
          some (merge (d.get_span l) (d.get_span r))) ∧
    (∀ (fuel : Nat) (input : ParseInput) (out : PResult),
        parse_expression fuel input emptyData = some out →
        BinSpanInv out.2.1) ∧
    (∀ (rec_expr : ParseCont) (fuel : Nat) (input : ParseInput)
        (d : ExpressionData) (ident : NameId) (lsp : Span)
        (acc : List ExpressionId) (id : ExpressionId) (d2 : ExpressionData)
        (i2 : ParseInput),
        parse_call_args rec_expr fuel input d ident lsp acc =
          some (.ok id, d2, i2) →
        ∃ (rsp : Span) (j : Nat), i2.index = j + 1 ∧
          i2.tokens[j]? = some ⟨Token.RParen, rsp⟩ ∧
          d2.get_span? id = some (merge lsp rsp)) := by
  refine ⟨?_, ?_, ?_⟩
  · intro d op l r
    exact get_span?_alloc_self d _ _
  · intro fuel input out hout
    have h := pratt_parse_ok fuel input emptyData 0 StoreInv_empty
    unfold parse_expression at hout
    rw [hout] at h
    exact h.1.2
  · intro rec_expr fuel input d ident lsp acc id d2 i2 hcall
    exact parse_call_args_span fuel input d ident lsp acc id d2 i2 hcall

/-- Witness for the span-composition statement at concrete inputs: a
concrete binary allocation, the store left by parsing `0 + 1 * 2`, and a
concrete run of the call-argument loop. -/
theorem span_composition_invariant_witness :
    (two_lit_store.alloc_bin_op .Add 0 1).2.get_span?
        (two_lit_store.alloc_bin_op .Add 0 1).1 =
      some (merge (two_lit_store.get_span 0) (two_lit_store.get_span 1)) ∧
    BinSpanInv (⟨[.Literal (.Integer 0), .Literal (.Integer 1),
        .Literal (.Integer 2), .Binary .Multiply 1 2, .Binary .Add 0 3],
      [(4, ⟨0, 9⟩), (3, ⟨4, 9⟩), (2, ⟨8, 9⟩), (1, ⟨4, 5⟩), (0, ⟨0, 1⟩)]⟩ :
        ExpressionData) ∧
    (∃ (rsp : Span) (j : Nat),
        (⟨[⟨Token.RParen, ⟨6, 7⟩⟩], 1⟩ : ParseInput).index = j + 1 ∧
        (⟨[⟨Token.RParen, ⟨6, 7⟩⟩], 1⟩ : ParseInput).tokens[j]? =
          some ⟨Token.RParen, rsp⟩ ∧
        (two_lit_store.alloc_call 9 [0] (merge ⟨1, 2⟩ ⟨6, 7⟩)).2.get_span? 2 =
          some (merge ⟨1, 2⟩ rsp)) :=
  ⟨span_composition_invariant.1 two_lit_store .Add 0 1,
   span_composition_invariant.2.1 20 ⟨tokens_add_mul, 0⟩
     (.ok 4,
      ⟨[.Literal (.Integer 0), .Literal (.Integer 1), .Literal (.Integer 2),
        .Binary .Multiply 1 2, .Binary .Add 0 3],
       [(4, ⟨0, 9⟩), (3, ⟨4, 9⟩), (2, ⟨8, 9⟩), (1, ⟨4, 5⟩), (0, ⟨0, 1⟩)]⟩,
      ⟨tokens_add_mul, 5⟩) rfl,
   span_composition_invariant.2.2 (fun i d _ => some (.ok 0, d, i)) 1
     ⟨[⟨Token.RParen, ⟨6, 7⟩⟩], 0⟩ two_lit_store 9 ⟨1, 2⟩ [] 2
     (two_lit_store.alloc_call 9 [0] (merge ⟨1, 2⟩ ⟨6, 7⟩)).2
     ⟨[⟨Token.RParen, ⟨6, 7⟩⟩], 1⟩ rfl⟩

/-- Witness: the freshly allocated handle resolves to its node in the
store after the allocation and again after one further allocation. -/
theorem alloc_lookup_total_witness :
    (emptyData.alloc (.Identifier 3) ⟨0, 1⟩).2.get_exp? 0 = some (.Identifier 3) ∧
    ((emptyData.alloc (.Identifier 3) ⟨0, 1⟩).2.alloc (.Identifier 4) ⟨2, 3⟩).2.get_exp? 0 =
      some (.Identifier 3) := by
  constructor
  · exact (alloc_lookup_total.1 emptyData (.Identifier 3) ⟨0, 1⟩).1
  · rw [(alloc_lookup_total.2 (emptyData.alloc (.Identifier 3) ⟨0, 1⟩).2
      (.Identifier 4) ⟨2, 3⟩ 0 (by decide)).1]
    rfl

end Wrought
